import Mathlib

/-!
# Verification of a DQN training notebook

Shallow embedding of the core components of a Deep-Q-Network Pong training
program: the gym observation wrappers (`MaxAndSkipEnv`, `ProcessFrame84`,
`ScaledFloatFrame`, `BufferWrapper`), the experience replay buffer
(`ReplayBuffer`), the temporal-difference target computation, and the main
training loop (warmup gate, target-network sync cadence, optimizer step).

Pixel values and rewards are modelled as rationals; network parameters and
stored transitions are abstract type parameters.  Python `deque(maxlen=c)`
objects are modelled as lists holding the most recent `c` elements, newest
last.  NumPy in-place array mutation (the frame-stack buffer) is modelled
with an explicit reference type so that aliasing between the internal
buffer and values handed to callers is observable.
-/

/-- `collections.deque(maxlen := cap)` append: the new element goes to the
right; if the deque is over capacity, elements fall off the left. -/

def dequeAppend (cap : ℕ) (buf : List α) (x : α) : List α :=
  let b := buf ++ [x]
  if b.length ≤ cap then b else b.drop (b.length - cap)

/-- `BufferWrapper.observation` body, acting on the internal frame stack:
`self.buffer[:-1] = self.buffer[1:]; self.buffer[-1] = observation`.
All existing entries shift one slot toward oldest, the new frame becomes
the newest (last) entry. -/

def BufferWrapper.push (buf : List α) (f : α) : List α :=
  buf.drop 1 ++ [f]

/-- `BufferWrapper.reset`: `self.buffer = np.zeros_like(...)` followed by
`self.observation(self.env.reset())`, i.e. a push of the first frame onto
an all-zero stack of `n` slots. -/

def BufferWrapper.reset (zero : α) (n : ℕ) (f : α) : List α :=
  BufferWrapper.push (List.replicate n zero) f

/-- What a caller receives from a NumPy-array-returning method: either the
internal buffer array itself (an alias: later in-place mutation of the
buffer is visible through it) or a freshly allocated array with a fixed
value. -/

inductive NpRef (α : Type) where
  | internal : NpRef α
  | copy : List α → NpRef α
deriving DecidableEq

/-- The value a holder of the reference observes when the internal buffer
currently holds `buf`. -/

def NpRef.deref (buf : List α) : NpRef α → List α
  | .internal => buf
  | .copy v => v

/-- A call to `BufferWrapper.observation`: mutates the internal stack by a
push and returns `self.buffer` itself — the internal array, not a copy. -/

def BufferWrapper.observationCall (buf : List α) (f : α) : List α × NpRef α :=
  (BufferWrapper.push buf f, NpRef.internal)

/-- `ScaledFloatFrame.observation`: `np.array(obs).astype(np.float32) / 255.0`
— reads the observation it was handed (through whatever reference it got)
and returns a freshly allocated scaled array. -/

def ScaledFloatFrame.observationCall (buf : List ℚ) (r : NpRef ℚ) : NpRef ℚ :=
  NpRef.copy ((NpRef.deref buf r).map (fun v => v / 255))

/-- C1 (counterexample): the value `BufferWrapper.observation` hands back is
NOT a defensive copy.  Concretely: reset the 4-slot stack with frame 10;
the returned reference then shows `[0,0,0,10]`; after one subsequent push
of frame 20 the same reference shows `[0,0,10,20]` — the caller observes
the mutation. -/

def ReplayBuffer.append (cap : ℕ) (buf : List α) (x : α) : List α :=
  dequeAppend cap buf x

/-- A whole run of `ReplayBuffer.append` calls starting from the empty
buffer created by `ReplayBuffer.__init__`. -/

def ReplayBuffer.appendAll (cap : ℕ) (xs : List α) : List α :=
  xs.foldl (dequeAppend cap) []

/-- Folding deque appends over any starting buffer within capacity keeps
exactly the newest `cap` elements of the combined stream. -/

def GAMMA : ℚ := 99 / 100

/-- `torch.max(..., dim=1)` over one row of Q-values: the maximum of a
nonempty list of action values (0 is never reached: the network has at
least one action output). -/

def listMax : List ℚ → ℚ
  | [] => 0
  | x :: xs => xs.foldl max x

/-- The temporal-difference target computed by the training loop for one
sampled transition: `next_state_values = target(next_states).max(1)[0]`,
then `next_state_values[done_mask] = 0.0`, then
`expected = next_state_values * GAMMA + rewards`. -/

def tdTarget (qnext : List ℚ) (reward : ℚ) (term : Bool) : ℚ :=
  (if term then 0 else listMax qnext) * GAMMA + reward

/-- The whole batch of TD targets: one entry per sampled transition, each
carrying its reward, terminal flag and the target network's row of
Q-values at the next state. -/

def batchTdTargets (batch : List (ℚ × Bool × List ℚ)) : List ℚ :=
  batch.map (fun e => tdTarget e.2.2 e.1 e.2.1)

/-- C4: for every batch, each transition's TD target is
`reward + GAMMA * max_a Q_target(next_state, a)` when the terminal flag is
false, and exactly `reward` when the flag is true — in the terminal case
the value is independent of the target network's output on the next
state. -/

structure Experience (S : Type) where
  state : S
  action : ℕ
  reward : ℚ
  term : Bool
  new_state : S
deriving DecidableEq

instance [Inhabited S] : Inhabited (Experience S) :=
  ⟨⟨default, 0, 0, false, default⟩⟩

/-- The contract of `np.random.choice(n, k, replace := False)` on success:
it yields `k` pairwise-distinct indices below `n` (which requires
`k ≤ n`). -/

def npChoiceNoReplace (n k : ℕ) (idxs : List ℕ) : Prop :=
  idxs.length = k ∧ idxs.Nodup ∧ ∀ i ∈ idxs, i < n

instance (n k : ℕ) (idxs : List ℕ) : Decidable (npChoiceNoReplace n k idxs) := by
  unfold npChoiceNoReplace
  infer_instance

/-- `ReplayBuffer.sample(batch_size)`, with the index draw of
`np.random.choice` made explicit as the `idxs` argument.  The two failure
points of the Python code are modelled as `none`: `np.random.choice`
raises when asked for more distinct indices than stored entries, and the
five-way unpacking `states, actions, rewards, dones, next_states =
zip(*[...])` raises when the list of picked transitions is empty (`zip()`
of nothing yields no tuples to unpack). -/

def ReplayBuffer.sample [Inhabited S] (buf : List (Experience S)) (k : ℕ) (idxs : List ℕ) :
    Option (List S × List ℕ × List ℚ × List Bool × List S) :=
  if k ≤ buf.length then
    match idxs.map (fun i => buf.getD i default) with
    | [] => none
    | c :: cs =>
      some ((c :: cs).map Experience.state, (c :: cs).map Experience.action,
        (c :: cs).map Experience.reward, (c :: cs).map Experience.term,
        (c :: cs).map Experience.new_state)
  else none

/-- C7 (counterexample): `batch_size = 0` satisfies the claim's guard
`batch_size ≤ size` on a one-element store, and `np.random.choice`
delivers the empty index draw, yet `sample` does not return a batch — the
five-way unpacking of `zip(*[])` fails. -/

def TARGET_UPDATE : ℕ := 1000

/-- Warmup threshold `INITIAL_MEMORY = 10000`. -/

def INITIAL_MEMORY : ℕ := 10000

/-- Replay buffer capacity `REPLAY_MEMORY = 10000`. -/

def REPLAY_MEMORY : ℕ := 10000

/-- The mutable state of the training loop that the warmup gate, target
sync and optimizer step read and write: the frame counter, the replay
buffer contents, the online network parameters `q` and the target network
parameters `target`.  Parameters are an abstract type `P`; stored
transitions an abstract type `T`. -/

structure LoopState (P T : Type) where
  frameIdx : ℕ
  buffer : List T
  q : P
  target : P

/-- One iteration of the training `while` loop: `frame_idx += 1`; the
environment step produces the transition `exp`, which is appended to the
replay buffer; `if len(replay_buffer) < INITIAL_MEMORY: continue`;
`if frame_idx % TARGET_UPDATE == 0: target_network.load_state_dict(
q_network.state_dict())`; then the learning step updates only the online
parameters, as an opaque function `grad` of the online and (post-sync)
target parameters — `optimizer = Adam(q_network.parameters())` holds no
target parameters.  Episode bookkeeping (reward tally, env reset, the
solved check) touches none of these four fields and is omitted.  Returns
the new state plus two event flags: whether the target sync executed and
whether the learning step executed. -/

def loopStep (grad : P → P → P) (exp : T) (s : LoopState P T) :
    LoopState P T × Bool × Bool :=
  if (ReplayBuffer.append REPLAY_MEMORY s.buffer exp).length < INITIAL_MEMORY then
    (⟨s.frameIdx + 1, ReplayBuffer.append REPLAY_MEMORY s.buffer exp, s.q, s.target⟩,
     false, false)
  else
    (⟨s.frameIdx + 1, ReplayBuffer.append REPLAY_MEMORY s.buffer exp,
      grad s.q (if (s.frameIdx + 1) % TARGET_UPDATE = 0 then s.q else s.target),
      if (s.frameIdx + 1) % TARGET_UPDATE = 0 then s.q else s.target⟩,
     decide ((s.frameIdx + 1) % TARGET_UPDATE = 0), true)

/-- C3 (counterexample): at step 1000 — a positive multiple of 1000 — in
the WARMUP state (empty-ish buffer, far below `INITIAL_MEMORY`), the
`continue` of the warmup gate skips the target sync: the sync flag is
false and `target` keeps its old value 3 while `q` is 7. -/

def maxFrame (fmax : F → F → F) : List F → Option F
  | [] => none
  | f :: fs => some (fs.foldl fmax f)

/-- The `for _ in range(self._skip)` loop of `MaxAndSkipEnv.step`: each
iteration steps the inner environment with the chosen action, appends the
raw observation to the 2-slot max-pool deque, accumulates the reward, and
breaks on `done`.  Returns the final inner state, the deque, the total
reward and the last `done` seen (`none` for the degenerate zero-iteration
loop, where the Python `done` stays `None`). -/

def skipIter (envStep : E → ℕ → E × F × ℚ × Bool) (a : ℕ) :
    ℕ → E → List F → E × List F × ℚ × Option Bool
  | 0, e, buf => (e, buf, 0, none)
  | n + 1, e, buf =>
    match envStep e a with
    | (e2, o, r, d) =>
      if d then (e2, dequeAppend 2 buf o, r, some true)
      else
        match skipIter envStep a n e2 (dequeAppend 2 buf o) with
        | (e3, buf3, acc, d2) => (e3, buf3, r + acc, some (d2.getD d))

/-- `MaxAndSkipEnv.step`: run the skip loop, then return
`np.max(np.stack(self._obs_buffer), axis=0)` as the observation together
with the summed reward and the final `done`. -/

def MaxAndSkipEnv.step (fmax : F → F → F) (envStep : E → ℕ → E × F × ℚ × Bool)
    (skip : ℕ) (e : E) (buf : List F) (a : ℕ) : E × List F × Option F × ℚ × Bool :=
  match skipIter envStep a skip e buf with
  | (e2, buf2, tot, d) => (e2, buf2, maxFrame fmax buf2, tot, d.getD false)

/-- `MaxAndSkipEnv.reset`: clear the max-pool buffer, reset the inner
environment and seed the buffer with the first observation. -/

def MaxAndSkipEnv.reset (envReset : E → E × F) (e : E) : E × List F × F :=
  match envReset e with
  | (e2, o) => (e2, [o], o)

/-- Modelled from the spec's words: the raw-step trajectory of one wrapper
step — the chosen action is applied for up to `n` consecutive raw steps,
stopping early as soon as one reports termination; the observations are
collected in order, the rewards are summed, and the final component tells
whether termination occurred. -/

def execRaw (envStep : E → ℕ → E × F × ℚ × Bool) (a : ℕ) :
    ℕ → E → E × List F × ℚ × Bool
  | 0, e => (e, [], 0, false)
  | n + 1, e =>
    match envStep e a with
    | (e2, o, r, d) =>
      if d then (e2, [o], r, true)
      else
        match execRaw envStep a n e2 with
        | (e3, os, rs, d2) => (e3, o :: os, r + rs, d2)

/-- The last two elements of a list (all of it when shorter). -/

def lastTwo (l : List F) : List F := l.drop (l.length - 2)

/-- Appending to a 2-slot deque keeps exactly the last two frames seen. -/

def grayscale (frame : ℕ → ℕ → Fin 3 → ℚ) (r c : ℕ) : ℚ :=
  frame r c 0 * (299 / 1000) + frame r c 1 * (587 / 1000) + frame r c 2 * (114 / 1000)

/-- The length of the overlap of the half-open unit pixel row `[r, r+1)`
with the interval `[a, b)`. -/

def overlapLen (a b : ℚ) (r : ℕ) : ℚ := max 0 (min b ((r : ℚ) + 1) - max a (r : ℚ))

/-- `t` clamped into `[a, b]`. -/

def clampQ (a b t : ℚ) : ℚ := min b (max a t)

/-- One output pixel of `cv2.resize(img, (wOut, hOut),
interpolation=cv2.INTER_AREA)` on an `hIn × wIn` image, in exact rational
arithmetic: output pixel `(i, j)` covers the source box
`[i·hIn/hOut, (i+1)·hIn/hOut) × [j·wIn/wOut, (j+1)·wIn/wOut)` and its
value is the average of the source over that box (pixel area relation).
The index ranges `Icc ⌊lo⌋ ⌊hi⌋` cover every source pixel with a
positive-length overlap; pixels outside contribute zero overlap. -/

def resizePx (hIn wIn hOut wOut : ℕ) (img : ℕ → ℕ → ℚ) (i j : ℕ) : ℚ :=
  (∑ r in Finset.Icc (i * hIn / hOut) ((i + 1) * hIn / hOut),
    ∑ c in Finset.Icc (j * wIn / wOut) ((j + 1) * wIn / wOut),
      overlapLen ((i : ℚ) * hIn / hOut) (((i : ℚ) + 1) * hIn / hOut) r *
        (overlapLen ((j : ℚ) * wIn / wOut) (((j : ℚ) + 1) * wIn / wOut) c * img r c)) /
  ((((i : ℚ) + 1) * hIn / hOut - (i : ℚ) * hIn / hOut) *
    (((j : ℚ) + 1) * wIn / wOut - (j : ℚ) * wIn / wOut))

/-- `ProcessFrame84.process`: dispatch on the input size (210×160×3 or
250×160×3, anything else is the fatal `assert False`, modelled as `none`);
luminance reduction; `cv2.resize` to 110×84 with `INTER_AREA`; the
vertical crop `resized_screen[18:102, :]` (output row `i` reads resized
row `i + 18`); and the final `astype(np.uint8)` byte conversion, which
truncates the (nonnegative) value toward zero. -/

def ProcessFrame84.process (hIn : ℕ) (frame : ℕ → ℕ → Fin 3 → ℚ) :
    Option (Fin 84 → Fin 84 → ℕ) :=
  if hIn = 210 ∨ hIn = 250 then
    some (fun i j =>
      (⌊resizePx hIn 160 110 84 (grayscale frame) ((i : ℕ) + 18) (j : ℕ)⌋).toNat)
  else none

/-- Modelled from the spec's words: the same pipeline but with the vertical
crop keeping the CENTRAL 84 of the 110 rows, i.e. rows 13..96 (13 cropped
from each side), instead of the code's rows 18..101. -/

def processCentralCrop (hIn : ℕ) (frame : ℕ → ℕ → Fin 3 → ℚ) :
    Option (Fin 84 → Fin 84 → ℕ) :=
  if hIn = 210 ∨ hIn = 250 then
    some (fun i j =>
      (⌊resizePx hIn 160 110 84 (grayscale frame) ((i : ℕ) + 13) (j : ℕ)⌋).toNat)
  else none

/-- A concrete test frame: rows 0..29 black, rows 30.. white in all three
channels. -/

def stripeFrame (r : ℕ) (_c : ℕ) (_ch : Fin 3) : ℚ := if r < 30 then 0 else 255

/-- Overlap lengths are nonnegative. -/

theorem bufferWrapper_alias_counterexample :
    NpRef.deref
        (BufferWrapper.push (BufferWrapper.observationCall (List.replicate 4 (0 : ℚ)) 10).1 20)
        (BufferWrapper.observationCall (List.replicate 4 (0 : ℚ)) 10).2 ≠
      NpRef.deref (BufferWrapper.observationCall (List.replicate 4 (0 : ℚ)) 10).1
        (BufferWrapper.observationCall (List.replicate 4 (0 : ℚ)) 10).2 := by
  decide

/-- C1 (amended): `BufferWrapper.observation` returns the internal buffer
itself, but the value the pipeline actually hands to the training loop —
and hence to the `ExperienceStore` — passes through the outermost
`ScaledFloatFrame` wrapper, which allocates a fresh scaled array; that
value is unaffected by any subsequent push into the frame stack, and it
equals the stack contents at call time scaled by 1/255. -/

theorem scaledFloat_copy_independent (buf : List ℚ) (f g : ℚ) :
    NpRef.deref (BufferWrapper.push (BufferWrapper.observationCall buf f).1 g)
        (ScaledFloatFrame.observationCall (BufferWrapper.observationCall buf f).1
          (BufferWrapper.observationCall buf f).2) =
      NpRef.deref (BufferWrapper.observationCall buf f).1
        (ScaledFloatFrame.observationCall (BufferWrapper.observationCall buf f).1
          (BufferWrapper.observationCall buf f).2) ∧
    NpRef.deref (BufferWrapper.observationCall buf f).1
        (ScaledFloatFrame.observationCall (BufferWrapper.observationCall buf f).1
          (BufferWrapper.observationCall buf f).2) =
      (BufferWrapper.push buf f).map (fun v => v / 255) := by
  exact ⟨rfl, rfl⟩

/-- C5: frame-stack semantics of `BufferWrapper` with `n_steps = 4`.
After `reset(f0)` the stack is `[0,0,0,f0]` (newest slot holds the first
frame, all others zero); from any 4-slot stack, four consecutive pushes of
`f1..f4` leave exactly `[f1,f2,f3,f4]` oldest-to-newest; a fifth push of
`f5` yields `[f2,f3,f4,f5]`, so the slot fed by `f1` has been discarded
and — when `f1` differs from the later frames — `f1` is no longer present
anywhere in the stack. -/

theorem bufferWrapper_stack_spec (zero f0 f1 f2 f3 f4 f5 : α) (buf : List α)
    (hlen : buf.length = 4) :
    BufferWrapper.reset zero 4 f0 = [zero, zero, zero, f0] ∧
    BufferWrapper.push (BufferWrapper.push (BufferWrapper.push
        (BufferWrapper.push buf f1) f2) f3) f4 = [f1, f2, f3, f4] ∧
    BufferWrapper.push (BufferWrapper.push (BufferWrapper.push (BufferWrapper.push
        (BufferWrapper.push buf f1) f2) f3) f4) f5 = [f2, f3, f4, f5] ∧
    (f1 ≠ f2 → f1 ≠ f3 → f1 ≠ f4 → f1 ≠ f5 →
      f1 ∉ BufferWrapper.push (BufferWrapper.push (BufferWrapper.push
        (BufferWrapper.push (BufferWrapper.push buf f1) f2) f3) f4) f5) := by
  match buf, hlen with
  | [a, b, c, d], _ =>
    refine ⟨rfl, rfl, rfl, ?_⟩
    intro h2 h3 h4 h5
    simp [BufferWrapper.push]
    exact ⟨h2, h3, h4, h5⟩

/-- A deque append always equals dropping the overflow from the left of the
extended list. -/

lemma dequeAppend_eq_drop (cap : ℕ) (buf : List α) (x : α) :
    dequeAppend cap buf x = (buf ++ [x]).drop ((buf.length + 1) - cap) := by
  unfold dequeAppend
  simp only [List.length_append, List.length_singleton]
  split
  · next h => rw [Nat.sub_eq_zero_of_le h, List.drop_zero]
  · rfl

/-- Length of a deque after an append. -/

lemma dequeAppend_length (cap : ℕ) (buf : List α) (x : α) :
    (dequeAppend cap buf x).length = min (buf.length + 1) cap := by
  rw [dequeAppend_eq_drop]
  simp only [List.length_drop, List.length_append, List.length_singleton]
  omega

/-- `ReplayBuffer.append`: `self.buffer.append(experience)` on a
`deque(maxlen=capacity)`. -/

lemma foldl_dequeAppend_eq_drop (cap : ℕ) :
    ∀ (xs buf : List α), buf.length ≤ cap →
      xs.foldl (dequeAppend cap) buf = (buf ++ xs).drop ((buf.length + xs.length) - cap) := by
  intro xs
  induction xs with
  | nil =>
    intro buf h
    simp [Nat.sub_eq_zero_of_le h]
  | cons x xs ih =>
    intro buf h
    rw [List.foldl_cons, ih (dequeAppend cap buf x) (by rw [dequeAppend_length]; omega),
      dequeAppend_eq_drop,
      ← List.drop_append_of_le_length (by simp),
      List.drop_drop]
    have hx : buf ++ x :: xs = (buf ++ [x]) ++ xs := by simp
    rw [hx]
    congr 1
    simp only [List.length_drop, List.length_append, List.length_singleton, List.length_cons,
      List.length_nil]
    omega

/-- C6: ring-buffer semantics of the `ExperienceStore`.  For every append
stream `xs` into a capacity-`cap` store: the final contents are exactly the
newest `min |xs| cap` entries in insertion order (age alone determines
eviction), the size never exceeds `cap` at any intermediate point, and
appending `cap + 1` entries leaves exactly `cap` entries with the oldest
one evicted. -/

theorem replayBuffer_capacity_spec (cap : ℕ) (xs : List α) :
    ReplayBuffer.appendAll cap xs = xs.drop (xs.length - cap) ∧
    (ReplayBuffer.appendAll cap xs).length = min xs.length cap ∧
    (∀ n, (ReplayBuffer.appendAll cap (xs.take n)).length ≤ cap) ∧
    (xs.length = cap + 1 → ReplayBuffer.appendAll cap xs = xs.tail) := by
  have key : ∀ ys : List α, ReplayBuffer.appendAll cap ys = ys.drop (ys.length - cap) := by
    intro ys
    have := foldl_dequeAppend_eq_drop cap ys ([] : List α) (by simp)
    simpa [ReplayBuffer.appendAll] using this
  refine ⟨key xs, ?_, ?_, ?_⟩
  · rw [key xs]
    simp only [List.length_drop]
    omega
  · intro n
    rw [key (xs.take n)]
    simp only [List.length_drop]
    omega
  · intro hlen
    rw [key xs, hlen, Nat.add_sub_cancel_left, List.drop_one]

/-- Witness for C6 on a concrete stream: capacity 2, three appends. -/

theorem replayBuffer_capacity_spec_witness :
    ReplayBuffer.appendAll 2 [10, 20, 30] = [10, 20, 30].drop ([10, 20, 30].length - 2) ∧
    (ReplayBuffer.appendAll 2 [10, 20, 30]).length = min [10, 20, 30].length 2 ∧
    (∀ n, (ReplayBuffer.appendAll 2 ([10, 20, 30].take n)).length ≤ 2) ∧
    ([10, 20, 30].length = 2 + 1 → ReplayBuffer.appendAll 2 [10, 20, 30] = [10, 20, 30].tail) :=
  replayBuffer_capacity_spec 2 [10, 20, 30]

/-- Witness for C5 at concrete frames. -/

theorem bufferWrapper_stack_spec_witness :
    BufferWrapper.reset (0 : ℕ) 4 10 = [0, 0, 0, 10] ∧
    BufferWrapper.push (BufferWrapper.push (BufferWrapper.push
        (BufferWrapper.push [9, 8, 7, 6] 1) 2) 3) 4 = [1, 2, 3, 4] ∧
    BufferWrapper.push (BufferWrapper.push (BufferWrapper.push (BufferWrapper.push
        (BufferWrapper.push [9, 8, 7, 6] 1) 2) 3) 4) 5 = [2, 3, 4, 5] ∧
    ((1 : ℕ) ≠ 2 → (1 : ℕ) ≠ 3 → (1 : ℕ) ≠ 4 → (1 : ℕ) ≠ 5 →
      1 ∉ BufferWrapper.push (BufferWrapper.push (BufferWrapper.push
        (BufferWrapper.push (BufferWrapper.push [9, 8, 7, 6] 1) 2) 3) 4) 5) :=
  bufferWrapper_stack_spec 0 10 1 2 3 4 5 [9, 8, 7, 6] rfl

/-- Discount factor `GAMMA = 0.99`. -/

theorem tdTarget_spec (batch : List (ℚ × Bool × List ℚ)) :
    batchTdTargets batch =
      batch.map (fun e => if e.2.1 then e.1 else e.1 + GAMMA * listMax e.2.2) ∧
    (∀ (r : ℚ) (q q' : List ℚ),
      tdTarget q r true = r ∧
      tdTarget q r false = r + GAMMA * listMax q ∧
      tdTarget q r true = tdTarget q' r true) := by
  constructor
  · unfold batchTdTargets
    congr 1
    funext e
    cases h : e.2.1
    · simp only [tdTarget, h, if_neg Bool.false_ne_true]
      ring
    · simp [tdTarget, h]
  · intro r q q'
    refine ⟨by simp [tdTarget], ?_, by simp [tdTarget]⟩
    simp only [tdTarget, if_neg Bool.false_ne_true]
    ring

/-- One stored transition: the `Experience` namedtuple
`(state, action, reward, done, new_state)`. -/

theorem sample_empty_batch_counterexample :
    npChoiceNoReplace ([(⟨0, 0, 0, false, 0⟩ : Experience ℚ)].length) 0 [] ∧
    0 ≤ [(⟨0, 0, 0, false, 0⟩ : Experience ℚ)].length ∧
    ReplayBuffer.sample [(⟨0, 0, 0, false, 0⟩ : Experience ℚ)] 0 [] = none := by
  refine ⟨by decide, by decide, rfl⟩

/-- C7 (amended): for every store and every `batch_size` with
`1 ≤ batch_size ≤ size`, and every admissible index draw, `sample`
returns the picked transitions decomposed into five parallel sequences,
each of length `batch_size`; the picked entries sit at pairwise-distinct
positions of the store and every one of them is currently present.
Requesting more than the current size is a fatal error (`none`). -/

theorem sample_spec {S : Type} [Inhabited S] (buf : List (Experience S)) (k : ℕ)
    (idxs : List ℕ) (hk : 1 ≤ k) (hc : npChoiceNoReplace buf.length k idxs) :
    (∃ chosen : List (Experience S),
      chosen = idxs.map (fun i => buf.getD i default) ∧
      chosen.length = k ∧
      idxs.Nodup ∧
      (∀ e ∈ chosen, e ∈ buf) ∧
      ReplayBuffer.sample buf k idxs =
        some (chosen.map Experience.state, chosen.map Experience.action,
          chosen.map Experience.reward, chosen.map Experience.term,
          chosen.map Experience.new_state)) ∧
    (∀ (k' : ℕ) (idxs' : List ℕ), buf.length < k' →
      ReplayBuffer.sample buf k' idxs' = none) := by
  obtain ⟨hlen, hnd, hmem⟩ := hc
  constructor
  · refine ⟨idxs.map (fun i => buf.getD i default), rfl, by simp [hlen], hnd, ?_, ?_⟩
    · intro e he
      simp only [List.mem_map] at he
      obtain ⟨i, hi, rfl⟩ := he
      have hilt : i < buf.length := hmem i hi
      rw [List.getD_eq_getElem buf default hilt]
      exact List.getElem_mem hilt
    · have hkle : k ≤ buf.length := by
        have hsub : idxs.toFinset ⊆ Finset.range buf.length := by
          intro i hi
          simp only [List.mem_toFinset] at hi
          simpa using hmem i hi
        have hcard := Finset.card_le_card hsub
        rwa [List.toFinset_card_of_nodup hnd, Finset.card_range, hlen] at hcard
      rcases hch : idxs.map (fun i => buf.getD i default) with _ | ⟨c, cs⟩
      · exfalso
        have h0 : idxs.length = 0 := by simpa using congrArg List.length hch
        omega
      · unfold ReplayBuffer.sample
        rw [if_pos hkle, hch]
  · intro k' idxs' hk'
    unfold ReplayBuffer.sample
    rw [if_neg (by omega)]

/-- Witness for C7 on a concrete two-element store with a one-element
draw. -/

theorem sample_spec_witness :
    (∃ chosen : List (Experience ℚ),
      chosen = [1].map (fun i =>
        [(⟨1, 2, 3, false, 4⟩ : Experience ℚ), ⟨5, 6, 7, true, 8⟩].getD i default) ∧
      chosen.length = 1 ∧
      ([1] : List ℕ).Nodup ∧
      (∀ e ∈ chosen, e ∈ [(⟨1, 2, 3, false, 4⟩ : Experience ℚ), ⟨5, 6, 7, true, 8⟩]) ∧
      ReplayBuffer.sample [(⟨1, 2, 3, false, 4⟩ : Experience ℚ), ⟨5, 6, 7, true, 8⟩] 1 [1] =
        some (chosen.map Experience.state, chosen.map Experience.action,
          chosen.map Experience.reward, chosen.map Experience.term,
          chosen.map Experience.new_state)) ∧
    (∀ (k' : ℕ) (idxs' : List ℕ),
      [(⟨1, 2, 3, false, 4⟩ : Experience ℚ), ⟨5, 6, 7, true, 8⟩].length < k' →
      ReplayBuffer.sample [(⟨1, 2, 3, false, 4⟩ : Experience ℚ), ⟨5, 6, 7, true, 8⟩] k' idxs' =
        none) :=
  sample_spec [⟨1, 2, 3, false, 4⟩, ⟨5, 6, 7, true, 8⟩] 1 [1] (by decide) (by decide)

/-- Target network update frequency `TARGET_UPDATE = 1000`. -/

theorem targetSync_warmup_counterexample :
    (loopStep (fun q _ => q + 1) () (⟨999, [], 7, 3⟩ : LoopState ℕ Unit)).1.frameIdx = 1000 ∧
    1000 % TARGET_UPDATE = 0 ∧ 0 < 1000 ∧
    (loopStep (fun q _ => q + 1) () (⟨999, [], 7, 3⟩ : LoopState ℕ Unit)).2.1 = false ∧
    (loopStep (fun q _ => q + 1) () (⟨999, [], 7, 3⟩ : LoopState ℕ Unit)).1.target = 3 ∧
    (loopStep (fun q _ => q + 1) () (⟨999, [], 7, 3⟩ : LoopState ℕ Unit)).1.q = 7 := by
  decide

/-- C3 (amended): the target sync executes at multiples of
`TARGET_UPDATE = 1000` only in the ACTIVE state (post-append buffer size
at least `INITIAL_MEMORY`); during WARMUP the `continue` skips it and
both parameter sets are left untouched.  When the sync executes, the
post-step `TargetParameters` equal the pre-step `QFunctionParameters`
exactly (the copy precedes the same step's gradient update, which then
advances only `q`).  At ACTIVE steps that are not multiples of 1000 no
sync happens. -/

theorem targetSync_schedule {P T : Type} (grad : P → P → P) (exp : T)
    (s : LoopState P T) :
    ((ReplayBuffer.append REPLAY_MEMORY s.buffer exp).length < INITIAL_MEMORY →
      (loopStep grad exp s).2.1 = false ∧
      (loopStep grad exp s).1.target = s.target ∧
      (loopStep grad exp s).1.q = s.q) ∧
    (INITIAL_MEMORY ≤ (ReplayBuffer.append REPLAY_MEMORY s.buffer exp).length →
      (s.frameIdx + 1) % TARGET_UPDATE = 0 →
      (loopStep grad exp s).2.1 = true ∧
      (loopStep grad exp s).1.target = s.q ∧
      (loopStep grad exp s).1.q = grad s.q s.q) ∧
    (INITIAL_MEMORY ≤ (ReplayBuffer.append REPLAY_MEMORY s.buffer exp).length →
      (s.frameIdx + 1) % TARGET_UPDATE ≠ 0 →
      (loopStep grad exp s).2.1 = false ∧
      (loopStep grad exp s).1.target = s.target) := by
  refine ⟨?_, ?_, ?_⟩
  · intro hw
    unfold loopStep
    rw [if_pos hw]
    exact ⟨rfl, rfl, rfl⟩
  · intro ha hsync
    unfold loopStep
    rw [if_neg (by omega), if_pos hsync]
    exact ⟨decide_eq_true hsync, rfl, rfl⟩
  · intro ha hsync
    unfold loopStep
    rw [if_neg (by omega), if_neg hsync]
    exact ⟨decide_eq_false hsync, rfl⟩

/-- Witness for C3 at a concrete ACTIVE state reaching step 1000: buffer
at 9999 before the step, so the append brings it to the threshold; the
sync executes, the new target is the old `q = 7`, and the learning step
advances `q` to `grad 7 7 = 8`. -/

theorem targetSync_schedule_witness :
    (loopStep (fun q _ => q + 1) ()
      (⟨999, List.replicate 9999 (), 7, 3⟩ : LoopState ℕ Unit)).2.1 = true ∧
    (loopStep (fun q _ => q + 1) ()
      (⟨999, List.replicate 9999 (), 7, 3⟩ : LoopState ℕ Unit)).1.target = 7 ∧
    (loopStep (fun q _ => q + 1) ()
      (⟨999, List.replicate 9999 (), 7, 3⟩ : LoopState ℕ Unit)).1.q = 8 := by
  have hlen : INITIAL_MEMORY ≤
      (ReplayBuffer.append REPLAY_MEMORY (List.replicate 9999 ()) ()).length := by
    show INITIAL_MEMORY ≤ (dequeAppend REPLAY_MEMORY (List.replicate 9999 ()) ()).length
    rw [dequeAppend_length]
    simp only [INITIAL_MEMORY, REPLAY_MEMORY, List.length_replicate]
    omega
  have h := (targetSync_schedule (fun q _ => q + 1) ()
    (⟨999, List.replicate 9999 (), 7, 3⟩ : LoopState ℕ Unit)).2.1 hlen
    (by decide)
  exact ⟨h.1, h.2.1, h.2.2⟩

/-- C8: `TargetParameters` are mutated only by the explicit sync (a full
copy of the online parameters): after any loop iteration the target is
either its old value or the pre-step online parameters, and it is
entirely independent of the gradient step — replacing the optimizer
update `grad` by any other `grad'` leaves the post-step target
unchanged. -/

theorem target_params_only_sync {P T : Type} (grad grad' : P → P → P) (exp : T)
    (s : LoopState P T) :
    ((loopStep grad exp s).1.target = s.target ∨ (loopStep grad exp s).1.target = s.q) ∧
    (loopStep grad exp s).1.target = (loopStep grad' exp s).1.target := by
  unfold loopStep
  by_cases hw : (ReplayBuffer.append REPLAY_MEMORY s.buffer exp).length < INITIAL_MEMORY
  · rw [if_pos hw, if_pos hw]
    exact ⟨Or.inl rfl, rfl⟩
  · rw [if_neg hw, if_neg hw]
    by_cases hs : (s.frameIdx + 1) % TARGET_UPDATE = 0
    · rw [if_pos hs]
      exact ⟨Or.inr rfl, rfl⟩
    · rw [if_neg hs]
      exact ⟨Or.inl rfl, rfl⟩

/-- C10: one loop iteration never shrinks the replay buffer — its new size
is `min (old + 1) REPLAY_MEMORY`; once the buffer is at the warmup
threshold `INITIAL_MEMORY` (= the capacity `REPLAY_MEMORY`), it stays
there after the step and the learning step executes; more generally the
learning step executes whenever the post-append size has reached the
threshold. -/

theorem warmup_exit_permanent {P T : Type} (grad : P → P → P) (exp : T)
    (s : LoopState P T) (hcap : s.buffer.length ≤ REPLAY_MEMORY) :
    (loopStep grad exp s).1.buffer.length = min (s.buffer.length + 1) REPLAY_MEMORY ∧
    s.buffer.length ≤ (loopStep grad exp s).1.buffer.length ∧
    (INITIAL_MEMORY ≤ (loopStep grad exp s).1.buffer.length →
      (loopStep grad exp s).2.2 = true) ∧
    (s.buffer.length = INITIAL_MEMORY →
      (loopStep grad exp s).1.buffer.length = INITIAL_MEMORY ∧
      (loopStep grad exp s).2.2 = true) := by
  have hlen : (ReplayBuffer.append REPLAY_MEMORY s.buffer exp).length
      = min (s.buffer.length + 1) REPLAY_MEMORY := dequeAppend_length _ _ _
  unfold loopStep
  by_cases hw : (ReplayBuffer.append REPLAY_MEMORY s.buffer exp).length < INITIAL_MEMORY
  · rw [if_pos hw]
    refine ⟨hlen, ?_, ?_, ?_⟩
    · rw [hlen]
      omega
    · intro hge
      exfalso
      simp only at hge
      omega
    · intro hthr
      exfalso
      rw [hlen, hthr] at hw
      simp only [INITIAL_MEMORY, REPLAY_MEMORY] at hw
      omega
  · rw [if_neg hw]
    refine ⟨hlen, ?_, fun _ => rfl, ?_⟩
    · rw [hlen]
      omega
    · intro hthr
      refine ⟨?_, rfl⟩
      rw [hlen, hthr]
      simp [INITIAL_MEMORY, REPLAY_MEMORY]

/-- Witness for C10 at a concrete state within capacity. -/

theorem warmup_exit_permanent_witness :
    (loopStep (fun q _ => q + 1) () (⟨0, [], 5, 5⟩ : LoopState ℕ Unit)).1.buffer.length =
      min ((([] : List Unit)).length + 1) REPLAY_MEMORY ∧
    (([] : List Unit)).length ≤
      (loopStep (fun q _ => q + 1) () (⟨0, [], 5, 5⟩ : LoopState ℕ Unit)).1.buffer.length ∧
    (INITIAL_MEMORY ≤
        (loopStep (fun q _ => q + 1) () (⟨0, [], 5, 5⟩ : LoopState ℕ Unit)).1.buffer.length →
      (loopStep (fun q _ => q + 1) () (⟨0, [], 5, 5⟩ : LoopState ℕ Unit)).2.2 = true) ∧
    ((([] : List Unit)).length = INITIAL_MEMORY →
      (loopStep (fun q _ => q + 1) () (⟨0, [], 5, 5⟩ : LoopState ℕ Unit)).1.buffer.length =
        INITIAL_MEMORY ∧
      (loopStep (fun q _ => q + 1) () (⟨0, [], 5, 5⟩ : LoopState ℕ Unit)).2.2 = true) :=
  warmup_exit_permanent (fun q _ => q + 1) () ⟨0, [], 5, 5⟩ (by simp [REPLAY_MEMORY])

/-- `np.max(np.stack(buf), axis=0)`: the element-wise maximum over the
frames currently in the max-pool buffer, with the element-wise binary
maximum abstracted as `fmax`; `none` models the `np.stack` error on an
empty buffer (unreachable after a reset). -/

lemma dequeAppend_two_eq_lastTwo (buf : List F) (o : F) :
    dequeAppend 2 buf o = lastTwo (buf ++ [o]) := by
  rw [dequeAppend_eq_drop]
  unfold lastTwo
  congr 1
  simp

/-- Taking the last two of a list already truncated to its last two
commutes with appending on the right. -/

lemma lastTwo_append_left (l os : List F) :
    lastTwo (lastTwo l ++ os) = lastTwo (l ++ os) := by
  unfold lastTwo
  rw [← List.drop_append_of_le_length (by omega), List.drop_drop]
  congr 1
  simp only [List.length_drop, List.length_append]
  omega

/-- The skip loop is exactly the spec's trajectory: final state, the last
two raw frames observed, the summed reward, and the last `done`. -/

lemma skipIter_eq_execRaw (envStep : E → ℕ → E × F × ℚ × Bool) (a : ℕ) :
    ∀ (n : ℕ) (e : E) (buf : List F), buf ≠ [] → buf.length ≤ 2 →
      skipIter envStep a n e buf =
        ((execRaw envStep a n e).1,
         lastTwo (buf ++ (execRaw envStep a n e).2.1),
         (execRaw envStep a n e).2.2.1,
         if n = 0 then none else some (execRaw envStep a n e).2.2.2) := by
  intro n
  induction n with
  | zero =>
    intro e buf h1 h2
    simp [skipIter, execRaw, lastTwo, Nat.sub_eq_zero_of_le h2]
  | succ n ih =>
    intro e buf h1 h2
    rcases hstep : envStep e a with ⟨e2, o, r, d⟩
    cases d
    · have hne : dequeAppend 2 buf o ≠ [] := by
        have := dequeAppend_length 2 buf o
        intro hnil
        rw [hnil] at this
        simp at this
        omega
      have hle : (dequeAppend 2 buf o).length ≤ 2 := by
        rw [dequeAppend_length]
        omega
      simp only [skipIter, execRaw, hstep, if_neg Bool.false_ne_true,
        ih e2 (dequeAppend 2 buf o) hne hle]
      rw [dequeAppend_two_eq_lastTwo, lastTwo_append_left]
      cases n with
      | zero =>
        simp [execRaw, lastTwo]
      | succ m =>
        simp only [if_neg (Nat.succ_ne_zero m), Option.getD_some,
          if_neg (Nat.succ_ne_zero (m + 1))]
        simp [List.append_assoc]
    · simp only [skipIter, execRaw, hstep, if_pos rfl]
      rw [dequeAppend_two_eq_lastTwo]
      simp [if_neg (Nat.succ_ne_zero n)]

/-- Length facts about the spec trajectory: at most `n` raw steps execute;
at least one when `n ≥ 1`; exactly `n` when no termination occurred. -/

lemma execRaw_length (envStep : E → ℕ → E × F × ℚ × Bool) (a : ℕ) :
    ∀ (n : ℕ) (e : E),
      (execRaw envStep a n e).2.1.length ≤ n ∧
      (1 ≤ n → 1 ≤ (execRaw envStep a n e).2.1.length) ∧
      ((execRaw envStep a n e).2.2.2 = false → (execRaw envStep a n e).2.1.length = n) := by
  intro n
  induction n with
  | zero =>
    intro e
    refine ⟨by simp [execRaw], by omega, by simp [execRaw]⟩
  | succ n ih =>
    intro e
    rcases hstep : envStep e a with ⟨e2, o, r, d⟩
    cases d
    · obtain ⟨ha, _, hc⟩ := ih e2
      rcases hrec : execRaw envStep a n e2 with ⟨e3, os, rs, d2⟩
      rw [hrec] at ha hc
      dsimp only at ha hc
      simp only [execRaw, hstep, if_neg Bool.false_ne_true, hrec]
      refine ⟨?_, ?_, ?_⟩
      · simp only [List.length_cons]
        omega
      · intro _
        simp
      · intro hdone
        simp only [List.length_cons]
        rw [hc hdone]
    · simp [execRaw, hstep]

/-- C9: one step of the frame-skip wrapper (skip = 4) applies the chosen
action for 4 consecutive raw steps, stopping early as soon as a raw step
reports termination (so between 1 and 4 raw steps execute, exactly 4 when
no termination); it returns the sum of the raw rewards over the executed
steps, the final termination flag, and as its frame the element-wise
maximum (`fmax`) of the last two raw frames observed (the max-pool deque
holds exactly those, counting frames left in it from before the call). -/

theorem maxAndSkip_step_spec {E F : Type} (fmax : F → F → F)
    (envStep : E → ℕ → E × F × ℚ × Bool) (a : ℕ) (e : E) (buf : List F)
    (h1 : buf ≠ []) (h2 : buf.length ≤ 2) :
    MaxAndSkipEnv.step fmax envStep 4 e buf a =
      ((execRaw envStep a 4 e).1,
       lastTwo (buf ++ (execRaw envStep a 4 e).2.1),
       maxFrame fmax (lastTwo (buf ++ (execRaw envStep a 4 e).2.1)),
       (execRaw envStep a 4 e).2.2.1,
       (execRaw envStep a 4 e).2.2.2) ∧
    1 ≤ (execRaw envStep a 4 e).2.1.length ∧
    (execRaw envStep a 4 e).2.1.length ≤ 4 ∧
    ((execRaw envStep a 4 e).2.2.2 = false → (execRaw envStep a 4 e).2.1.length = 4) := by
  obtain ⟨ha, hb, hc⟩ := execRaw_length envStep a 4 e
  refine ⟨?_, hb (by norm_num), ha, hc⟩
  unfold MaxAndSkipEnv.step
  rw [skipIter_eq_execRaw envStep a 4 e buf h1 h2]
  simp

/-- Witness for C9: a concrete two-raw-step episode.  The inner
environment counts steps (`E = ℕ`), emits its state as the frame, reward
1, and terminates at state 1; starting from state 0 with one stale frame
in the pool, the wrapper executes raw steps at states 0 and 1 and stops. -/

theorem maxAndSkip_step_spec_witness :
    MaxAndSkipEnv.step max (fun (e : ℕ) (_ : ℕ) => (e + 1, (e : ℚ), 1, decide (e = 1))) 4 0 [5] 0 =
      (((execRaw (fun (e : ℕ) (_ : ℕ) => (e + 1, (e : ℚ), 1, decide (e = 1))) 0 4 0).1 : ℕ),
       lastTwo ([5] ++ (execRaw (fun (e : ℕ) (_ : ℕ) => (e + 1, (e : ℚ), 1, decide (e = 1))) 0 4 0).2.1),
       maxFrame max
         (lastTwo ([5] ++ (execRaw (fun (e : ℕ) (_ : ℕ) => (e + 1, (e : ℚ), 1, decide (e = 1))) 0 4 0).2.1)),
       (execRaw (fun (e : ℕ) (_ : ℕ) => (e + 1, (e : ℚ), 1, decide (e = 1))) 0 4 0).2.2.1,
       (execRaw (fun (e : ℕ) (_ : ℕ) => (e + 1, (e : ℚ), 1, decide (e = 1))) 0 4 0).2.2.2) ∧
    1 ≤ (execRaw (fun (e : ℕ) (_ : ℕ) => (e + 1, (e : ℚ), 1, decide (e = 1))) 0 4 0).2.1.length ∧
    (execRaw (fun (e : ℕ) (_ : ℕ) => (e + 1, (e : ℚ), 1, decide (e = 1))) 0 4 0).2.1.length ≤ 4 ∧
    ((execRaw (fun (e : ℕ) (_ : ℕ) => (e + 1, (e : ℚ), 1, decide (e = 1))) 0 4 0).2.2.2 = false →
      (execRaw (fun (e : ℕ) (_ : ℕ) => (e + 1, (e : ℚ), 1, decide (e = 1))) 0 4 0).2.1.length = 4) :=
  maxAndSkip_step_spec max (fun (e : ℕ) (_ : ℕ) => (e + 1, (e : ℚ), 1, decide (e = 1))) 0 0 [5]
    (by simp) (by simp)

/-- The luminance-weighted channel reduction of `ProcessFrame84.process`:
`img[:, :, 0] * 0.299 + img[:, :, 1] * 0.587 + img[:, :, 2] * 0.114`. -/

lemma overlapLen_nonneg (a b : ℚ) (r : ℕ) : 0 ≤ overlapLen a b r :=
  le_max_left 0 _

/-- Each unit pixel's overlap with `[a, b)` is bounded by the growth of the
clamp function across that pixel. -/

lemma overlapLen_le_clamp (a b : ℚ) (r : ℕ) :
    overlapLen a b r ≤ clampQ a b ((r : ℚ) + 1) - clampQ a b (r : ℚ) := by
  unfold overlapLen clampQ
  have h1 : min b ((r : ℚ) + 1) ≤ min b (max a ((r : ℚ) + 1)) :=
    min_le_min (le_refl b) (le_max_right a _)
  have h2 : min b (max a (r : ℚ)) ≤ max a (r : ℚ) := min_le_right _ _
  have h3 : min b (max a (r : ℚ)) ≤ min b (max a ((r : ℚ) + 1)) :=
    min_le_min (le_refl b) (max_le_max (le_refl a) (by linarith))
  apply max_le
  · linarith
  · linarith

/-- Telescoping sum over a closed natural interval. -/

lemma sum_Icc_telescope (f : ℕ → ℚ) (lo hi : ℕ) (h : lo ≤ hi) :
    ∑ r in Finset.Icc lo hi, (f (r + 1) - f r) = f (hi + 1) - f lo := by
  induction hi, h using Nat.le_induction with
  | base => simp
  | succ hi hh ih =>
    rw [Finset.sum_Icc_succ_top (by omega), ih]
    ring

/-- The total overlap of the pixels of any index interval with `[a, b)` is
at most the interval length `b - a`. -/

lemma overlap_sum_le (a b : ℚ) (hab : a ≤ b) (lo hi : ℕ) :
    ∑ r in Finset.Icc lo hi, overlapLen a b r ≤ b - a := by
  rcases le_or_lt lo hi with hle | hlt
  · have step : ∑ r in Finset.Icc lo hi, overlapLen a b r ≤
        ∑ r in Finset.Icc lo hi, (clampQ a b (((r + 1 : ℕ) : ℚ)) - clampQ a b ((r : ℕ) : ℚ)) := by
      refine Finset.sum_le_sum fun r _ => ?_
      have := overlapLen_le_clamp a b r
      push_cast
      push_cast at this
      exact this
    have tel := sum_Icc_telescope (fun r => clampQ a b ((r : ℕ) : ℚ)) lo hi hle
    rw [tel] at step
    have hup : clampQ a b (((hi + 1 : ℕ) : ℚ)) ≤ b := min_le_left _ _
    have hdown : a ≤ clampQ a b ((lo : ℕ) : ℚ) :=
      le_min hab (le_max_left a _)
    linarith
  · rw [Finset.Icc_eq_empty (by omega)]
    simp
    linarith

/-- A weighted double average with nonnegative weights of total at most
`Y` (rows) and `X` (columns), over values in `[0, 255]`, divided by
`Y * X`, lies in `[0, 255]`. -/

lemma div_bound_aux (Ry Rx : Finset ℕ) (ovy ovx : ℕ → ℚ) (img : ℕ → ℕ → ℚ)
    (hovy : ∀ r, 0 ≤ ovy r) (hovx : ∀ c, 0 ≤ ovx c)
    (hlo : ∀ r c, 0 ≤ img r c) (hhi : ∀ r c, img r c ≤ 255)
    (Y X : ℚ) (hY : ∑ r in Ry, ovy r ≤ Y) (hX : ∑ c in Rx, ovx c ≤ X)
    (hYpos : 0 < Y) (hXpos : 0 < X) :
    0 ≤ (∑ r in Ry, ∑ c in Rx, ovy r * (ovx c * img r c)) / (Y * X) ∧
    (∑ r in Ry, ∑ c in Rx, ovy r * (ovx c * img r c)) / (Y * X) ≤ 255 := by
  have hinner : ∀ r, ∑ c in Rx, ovx c * img r c ≤ X * 255 := by
    intro r
    calc ∑ c in Rx, ovx c * img r c ≤ ∑ c in Rx, ovx c * 255 :=
        Finset.sum_le_sum fun c _ => mul_le_mul_of_nonneg_left (hhi r c) (hovx c)
      _ = (∑ c in Rx, ovx c) * 255 := (Finset.sum_mul _ _ _).symm
      _ ≤ X * 255 := mul_le_mul_of_nonneg_right hX (by norm_num)
  have hnum_le : ∑ r in Ry, ∑ c in Rx, ovy r * (ovx c * img r c) ≤ 255 * (Y * X) := by
    calc ∑ r in Ry, ∑ c in Rx, ovy r * (ovx c * img r c)
        = ∑ r in Ry, ovy r * ∑ c in Rx, ovx c * img r c := by
          refine Finset.sum_congr rfl fun r _ => ?_
          rw [Finset.mul_sum]
      _ ≤ ∑ r in Ry, ovy r * (X * 255) :=
          Finset.sum_le_sum fun r _ => mul_le_mul_of_nonneg_left (hinner r) (hovy r)
      _ = (∑ r in Ry, ovy r) * (X * 255) := (Finset.sum_mul _ _ _).symm
      _ ≤ Y * (X * 255) := mul_le_mul_of_nonneg_right hY (by positivity)
      _ = 255 * (Y * X) := by ring
  have hnum_nonneg : 0 ≤ ∑ r in Ry, ∑ c in Rx, ovy r * (ovx c * img r c) :=
    Finset.sum_nonneg fun r _ => Finset.sum_nonneg fun c _ =>
      mul_nonneg (hovy r) (mul_nonneg (hovx c) (hlo r c))
  have hD : (0 : ℚ) < Y * X := mul_pos hYpos hXpos
  refine ⟨div_nonneg hnum_nonneg hD.le, ?_⟩
  rw [div_le_iff₀ hD]
  linarith

/-- On an image with values in `[0, 255]`, every `INTER_AREA` output pixel
again lies in `[0, 255]`. -/

lemma resizePx_bounds (hIn wIn hOut wOut : ℕ) (hh : 0 < hIn) (hw : 0 < wIn)
    (hho : 0 < hOut) (hwo : 0 < wOut) (img : ℕ → ℕ → ℚ)
    (hlo : ∀ r c, 0 ≤ img r c) (hhi : ∀ r c, img r c ≤ 255) (i j : ℕ) :
    0 ≤ resizePx hIn wIn hOut wOut img i j ∧ resizePx hIn wIn hOut wOut img i j ≤ 255 := by
  have hyeq : ((i : ℚ) + 1) * hIn / hOut - (i : ℚ) * hIn / hOut = (hIn : ℚ) / hOut := by
    field_simp
    ring
  have hxeq : ((j : ℚ) + 1) * wIn / wOut - (j : ℚ) * wIn / wOut = (wIn : ℚ) / wOut := by
    field_simp
    ring
  have hy : (i : ℚ) * hIn / hOut ≤ ((i : ℚ) + 1) * hIn / hOut := by
    have h1 : (i : ℚ) * hIn ≤ ((i : ℚ) + 1) * hIn := by
      have h2 : (0 : ℚ) ≤ (hIn : ℚ) := by positivity
      nlinarith
    have h3 : (0 : ℚ) < (hOut : ℚ) := by exact_mod_cast hho
    exact (div_le_div_iff_of_pos_right h3).mpr h1
  have hx : (j : ℚ) * wIn / wOut ≤ ((j : ℚ) + 1) * wIn / wOut := by
    have h1 : (j : ℚ) * wIn ≤ ((j : ℚ) + 1) * wIn := by
      have h2 : (0 : ℚ) ≤ (wIn : ℚ) := by positivity
      nlinarith
    have h3 : (0 : ℚ) < (wOut : ℚ) := by exact_mod_cast hwo
    exact (div_le_div_iff_of_pos_right h3).mpr h1
  have hY := overlap_sum_le _ _ hy (i * hIn / hOut) ((i + 1) * hIn / hOut)
  have hX := overlap_sum_le _ _ hx (j * wIn / wOut) ((j + 1) * wIn / wOut)
  rw [hyeq] at hY
  rw [hxeq] at hX
  have hYpos : (0 : ℚ) < (hIn : ℚ) / hOut :=
    div_pos (by exact_mod_cast hh) (by exact_mod_cast hho)
  have hXpos : (0 : ℚ) < (wIn : ℚ) / wOut :=
    div_pos (by exact_mod_cast hw) (by exact_mod_cast hwo)
  unfold resizePx
  rw [hyeq, hxeq]
  exact div_bound_aux _ _ _ _ _ (fun r => overlapLen_nonneg _ _ r)
    (fun c => overlapLen_nonneg _ _ c) hlo hhi _ _ hY hX hYpos hXpos

/-- The luminance combination of channels in `[0, 255]` stays in
`[0, 255]` (the weights sum to 1). -/

lemma grayscale_bounds (frame : ℕ → ℕ → Fin 3 → ℚ)
    (hlo : ∀ r c ch, 0 ≤ frame r c ch) (hhi : ∀ r c ch, frame r c ch ≤ 255) (r c : ℕ) :
    0 ≤ grayscale frame r c ∧ grayscale frame r c ≤ 255 := by
  unfold grayscale
  have m0 : 0 ≤ frame r c 0 * (299 / 1000) := mul_nonneg (hlo r c 0) (by norm_num)
  have m1 : 0 ≤ frame r c 1 * (587 / 1000) := mul_nonneg (hlo r c 1) (by norm_num)
  have m2 : 0 ≤ frame r c 2 * (114 / 1000) := mul_nonneg (hlo r c 2) (by norm_num)
  have u0 : frame r c 0 * (299 / 1000) ≤ 255 * (299 / 1000) :=
    mul_le_mul_of_nonneg_right (hhi r c 0) (by norm_num)
  have u1 : frame r c 1 * (587 / 1000) ≤ 255 * (587 / 1000) :=
    mul_le_mul_of_nonneg_right (hhi r c 1) (by norm_num)
  have u2 : frame r c 2 * (114 / 1000) ≤ 255 * (114 / 1000) :=
    mul_le_mul_of_nonneg_right (hhi r c 2) (by norm_num)
  constructor
  · linarith
  · linarith

/-- C2 (amended): for every raw frame of one of the two known resolutions
with channel values in `[0, 255]`, `ProcessFrame84.process` succeeds and
yields an 84×84 single-channel image (the type), byte-valued (every pixel
value at most 255, and the byte cast is exact: `toNat` of a nonnegative
floor), computed as the luminance reduction with weights
(0.299, 0.587, 0.114) followed by `INTER_AREA` downsampling to 110×84 and
a vertical crop keeping rows 18..101 of the 110 (not the central rows). -/

theorem process_byte_valued_crop18 (hIn : ℕ) (frame : ℕ → ℕ → Fin 3 → ℚ)
    (hres : hIn = 210 ∨ hIn = 250)
    (hlo : ∀ r c ch, 0 ≤ frame r c ch) (hhi : ∀ r c ch, frame r c ch ≤ 255) :
    ∃ g : Fin 84 → Fin 84 → ℕ,
      ProcessFrame84.process hIn frame = some g ∧
      ∀ i j : Fin 84,
        g i j = (⌊resizePx hIn 160 110 84 (grayscale frame) ((i : ℕ) + 18) (j : ℕ)⌋).toNat ∧
        (g i j : ℤ) = ⌊resizePx hIn 160 110 84 (grayscale frame) ((i : ℕ) + 18) (j : ℕ)⌋ ∧
        g i j ≤ 255 := by
  have hglo : ∀ r c, 0 ≤ grayscale frame r c := fun r c =>
    (grayscale_bounds frame hlo hhi r c).1
  have hghi : ∀ r c, grayscale frame r c ≤ 255 := fun r c =>
    (grayscale_bounds frame hlo hhi r c).2
  have hhpos : 0 < hIn := by rcases hres with h | h <;> omega
  refine ⟨fun i j =>
    (⌊resizePx hIn 160 110 84 (grayscale frame) ((i : ℕ) + 18) (j : ℕ)⌋).toNat, ?_, ?_⟩
  · unfold ProcessFrame84.process
    rw [if_pos hres]
  · intro i j
    obtain ⟨h0, h255⟩ := resizePx_bounds hIn 160 110 84 hhpos (by norm_num) (by norm_num)
      (by norm_num) (grayscale frame) hglo hghi ((i : ℕ) + 18) (j : ℕ)
    have hf0 : 0 ≤ ⌊resizePx hIn 160 110 84 (grayscale frame) ((i : ℕ) + 18) (j : ℕ)⌋ :=
      Int.floor_nonneg.mpr h0
    have hf255 : ⌊resizePx hIn 160 110 84 (grayscale frame) ((i : ℕ) + 18) (j : ℕ)⌋ ≤ 255 := by
      have h := Int.floor_le_floor h255
      simpa using h
    exact ⟨rfl, Int.toNat_of_nonneg hf0, Int.toNat_le.mpr (by exact_mod_cast hf255)⟩

/-- Witness for C2 at the concrete stripe frame. -/

theorem process_byte_valued_crop18_witness :
    ∃ g : Fin 84 → Fin 84 → ℕ,
      ProcessFrame84.process 210 stripeFrame = some g ∧
      ∀ i j : Fin 84,
        g i j =
          (⌊resizePx 210 160 110 84 (grayscale stripeFrame) ((i : ℕ) + 18) (j : ℕ)⌋).toNat ∧
        (g i j : ℤ) = ⌊resizePx 210 160 110 84 (grayscale stripeFrame) ((i : ℕ) + 18) (j : ℕ)⌋ ∧
        g i j ≤ 255 :=
  process_byte_valued_crop18 210 stripeFrame (Or.inl rfl)
    (fun _ _ _ => by unfold stripeFrame; split <;> norm_num)
    (fun _ _ _ => by unfold stripeFrame; split <;> norm_num)

/-- C2 (counterexample): the crop is NOT the central 84 rows.  On the
stripe frame (rows ≥ 30 white), the code's crop (rows 18..101 of the 110)
reads resized rows 34..37 at output pixel (0,0) and yields byte 255,
while a central crop (rows 13..96) would read resized rows 24..27 and
yield byte 0; the two pipelines disagree. -/

theorem processCrop_counterexample :
    (ProcessFrame84.process 210 stripeFrame).map (fun g => g 0 0) = some 255 ∧
    (processCentralCrop 210 stripeFrame).map (fun g => g 0 0) = some 0 ∧
    ProcessFrame84.process 210 stripeFrame ≠ processCentralCrop 210 stripeFrame := by
  have h18 : resizePx 210 160 110 84 (grayscale stripeFrame) 18 0 = 255 := by
    unfold resizePx
    rw [show Finset.Icc (18 * 210 / 110) ((18 + 1) * 210 / 110) = ({34, 35, 36} : Finset ℕ)
        from by decide,
      show Finset.Icc (0 * 160 / 84) ((0 + 1) * 160 / 84) = ({0, 1} : Finset ℕ) from by decide]
    simp only [Finset.sum_insert (show (34 : ℕ) ∉ ({35, 36} : Finset ℕ) by decide),
      Finset.sum_insert (show (35 : ℕ) ∉ ({36} : Finset ℕ) by decide),
      Finset.sum_singleton, Finset.sum_pair (show (0 : ℕ) ≠ 1 by decide)]
    norm_num [overlapLen, grayscale, stripeFrame, min_def, max_def]
  have h13 : resizePx 210 160 110 84 (grayscale stripeFrame) 13 0 = 0 := by
    unfold resizePx
    rw [show Finset.Icc (13 * 210 / 110) ((13 + 1) * 210 / 110) = ({24, 25, 26} : Finset ℕ)
        from by decide,
      show Finset.Icc (0 * 160 / 84) ((0 + 1) * 160 / 84) = ({0, 1} : Finset ℕ) from by decide]
    simp only [Finset.sum_insert (show (24 : ℕ) ∉ ({25, 26} : Finset ℕ) by decide),
      Finset.sum_insert (show (25 : ℕ) ∉ ({26} : Finset ℕ) by decide),
      Finset.sum_singleton, Finset.sum_pair (show (0 : ℕ) ≠ 1 by decide)]
    norm_num [overlapLen, grayscale, stripeFrame, min_def, max_def]
  have hA : (ProcessFrame84.process 210 stripeFrame).map (fun g => g 0 0) = some 255 := by
    unfold ProcessFrame84.process
    rw [if_pos (Or.inl rfl)]
    simp only [Option.map_some']
    rw [show ((0 : Fin 84) : ℕ) = 0 from rfl, show (0 + 18 : ℕ) = 18 from rfl, h18]
    norm_num
    decide
  have hB : (processCentralCrop 210 stripeFrame).map (fun g => g 0 0) = some 0 := by
    unfold processCentralCrop
    rw [if_pos (Or.inl rfl)]
    simp only [Option.map_some']
    rw [show ((0 : Fin 84) : ℕ) = 0 from rfl, show (0 + 13 : ℕ) = 13 from rfl, h13]
    norm_num
  refine ⟨hA, hB, ?_⟩
  intro heq
  rw [heq] at hA
  have hcontra : some (255 : ℕ) = some 0 := hA.symm.trans hB
  simp at hcontra
